import Mathlib

/-!
Verification of the `cosette` helper routines: the angular-power-spectrum
reshaper `read_sfx_class_cls_file`, the header parser
`read_class_file_headers` (from `reading_utils.py`), and the chain-trimming
utilities `delete_burn_in` and `delete_before_last_hash_line` (from
`varie.py`).

The Python dictionary loaded from the archive is modelled as a partial map
`String → Option α`; `d[k]` raises `KeyError` (modelled as `Except.error k`)
while `d.get(k)` returns an `Option`.  Python dictionaries built by the
reshaper are modelled as association lists in insertion order.
-/

namespace Cosette

/-- Sequencing of fallible computations, mirroring Python's behaviour that an
exception aborts the whole call. -/
def bindE (x : Except ε α) (f : α → Except ε β) : Except ε β :=
  match x with
  | Except.error e => Except.error e
  | Except.ok a => f a

/-- `d[k]` on a Python dict: the value, or a `KeyError` naming the key. -/
def getItem (d : String → Option α) (k : String) : Except String α :=
  match d k with
  | some v => Except.ok v
  | none => Except.error k

/-- Left-to-right effectful map, aborting at the first error, as a Python
`for` loop over lookups does. -/
def mapE (f : α → Except ε β) : List α → Except ε (List β)
  | [] => Except.ok []
  | a :: as =>
    match f a with
    | Except.error e => Except.error e
    | Except.ok b =>
      match mapE f as with
      | Except.error e => Except.error e
      | Except.ok bs => Except.ok (b :: bs)

@[simp] theorem bindE_ok (a : α) (f : α → Except ε β) : bindE (Except.ok a) f = f a := rfl

@[simp] theorem bindE_error (e : ε) (f : α → Except ε β) :
    bindE (Except.error e) f = Except.error e := rfl

@[simp] theorem mapE_nil (f : α → Except ε β) : mapE f [] = Except.ok [] := rfl

theorem mapE_eq_map (f : α → Except ε β) (g : α → β) :
    ∀ (l : List α), (∀ a ∈ l, f a = Except.ok (g a)) → mapE f l = Except.ok (l.map g) := by
  intro l
  induction l with
  | nil => intro _; rfl
  | cons a as ih =>
    intro h
    have ha := h a (by simp)
    have hrest := ih (fun x hx => h x (by simp [hx]))
    simp [mapE, ha, hrest]

theorem mapE_error_inv (f : α → Except ε β) :
    ∀ (l : List α), mapE f l = Except.error e → ∃ a ∈ l, f a = Except.error e := by
  intro l
  induction l with
  | nil => intro h; simp [mapE] at h
  | cons a as ih =>
    intro h
    by_cases hfa : ∃ b, f a = Except.ok b
    · obtain ⟨b, hb⟩ := hfa
      rw [mapE, hb] at h
      cases hrec : mapE f as with
      | error e2 =>
        rw [hrec] at h
        obtain ⟨x, hx, hfx⟩ := ih (by cases h; exact hrec)
        exact ⟨x, by simp [hx], hfx⟩
      | ok bs => rw [hrec] at h; cases h
    · cases hfa2 : f a with
      | error e2 =>
        rw [mapE, hfa2] at h
        cases h
        exact ⟨a, by simp, hfa2⟩
      | ok b => exact absurd ⟨b, hfa2⟩ hfa

theorem mapE_ok_inv (f : α → Except ε β) :
    ∀ (l : List α) (ys : List β), mapE f l = Except.ok ys →
      List.Forall₂ (fun a b => f a = Except.ok b) l ys := by
  intro l
  induction l with
  | nil =>
    intro ys h
    cases h
    exact List.Forall₂.nil
  | cons a as ih =>
    intro ys h
    cases hfa : f a with
    | error e => rw [mapE, hfa] at h; cases h
    | ok b =>
      rw [mapE, hfa] at h
      cases hrec : mapE f as with
      | error e => rw [hrec] at h; cases h
      | ok bs =>
        rw [hrec] at h
        cases h
        exact List.Forall₂.cons hfa (ih bs hrec)

theorem mapE_congr (f g : α → Except ε β) :
    ∀ (l : List α), (∀ a ∈ l, f a = g a) → mapE f l = mapE g l := by
  intro l
  induction l with
  | nil => intro _; rfl
  | cons a as ih =>
    intro h
    rw [mapE, mapE, h a (by simp), ih (fun x hx => h x (by simp [hx]))]

/-! ### Key naming convention of `read_sfx_class_cls_file`

The source builds dictionary keys by string concatenation:
`"td" + str(bin1)`, `("d" + str(bin1)) * 2`, `"d" + str(bin1) + "d" + str(bin2)`,
and so on.  We mirror those expressions verbatim. -/

/-- `"td" + str(b)` -/
def tdKey (b : Nat) : String := "td" ++ toString b

/-- `("d" + str(b)) * 2` -/
def ddAutoKey (b : Nat) : String := ("d" ++ toString b) ++ ("d" ++ toString b)

/-- `("l" + str(b)) * 2` -/
def llAutoKey (b : Nat) : String := ("l" ++ toString b) ++ ("l" ++ toString b)

/-- `("i" + str(b)) * 2` -/
def iiAutoKey (b : Nat) : String := ("i" ++ toString b) ++ ("i" ++ toString b)

/-- `"d" + str(b1) + "d" + str(b2)` -/
def ddKey (b1 b2 : Nat) : String := "d" ++ toString b1 ++ "d" ++ toString b2

/-- `"l" + str(b1) + "l" + str(b2)` -/
def llKey (b1 b2 : Nat) : String := "l" ++ toString b1 ++ "l" ++ toString b2

/-- `"i" + str(b1) + "i" + str(b2)` -/
def iiKey (b1 b2 : Nat) : String := "i" ++ toString b1 ++ "i" ++ toString b2

/-- `"d" + str(b1) + "l" + str(b2)` -/
def dlKey (b1 b2 : Nat) : String := "d" ++ toString b1 ++ "l" ++ toString b2

/-- `"d" + str(b1) + "i" + str(b2)` -/
def diKey (b1 b2 : Nat) : String := "d" ++ toString b1 ++ "i" ++ toString b2

/-- `"i" + str(b1) + "l" + str(b2)` -/
def ilKey (b1 b2 : Nat) : String := "i" ++ toString b1 ++ "l" ++ toString b2

/-- All the data gathered for one value of `bin1` in the main loop of
`read_sfx_class_cls_file`: the single-bin fields, the upper-triangle rows of
`dd`/`ll`/`ii` and the full-square rows of `dl`/`di`/`il`.  Optional
(`.get`) lookups store an `Option α`. -/
structure SpectraRow (α : Type u) where
  td : α
  dd_auto : α
  ll_auto : α
  ii_auto : Option α
  ddRow : List (Nat × α)
  llRow : List (Nat × α)
  iiRow : List (Nat × Option α)
  dlRow : List (Nat × α)
  diRow : List (Nat × Option α)
  ilRow : List (Nat × Option α)

/-- The dictionary returned by `read_sfx_class_cls_file`.  Python dicts keyed
by bin indices are modelled as association lists in insertion order. -/
structure ClDict (α : Type u) where
  l : α
  lls : α
  tt : α
  ee : α
  te : α
  pp : α
  tp : α
  ep : α
  dd : List (Nat × List (Nat × α))
  ll : List (Nat × List (Nat × α))
  ii : List (Nat × List (Nat × Option α))
  td : List (Nat × α)
  dd_auto : List (Nat × α)
  ll_auto : List (Nat × α)
  ii_auto : List (Nat × Option α)
  dl : List (Nat × List (Nat × α))
  di : List (Nat × List (Nat × Option α))
  il : List (Nat × List (Nat × Option α))

/-- The body of the outer `for bin1 in range(nbins)` loop of
`read_sfx_class_cls_file`, with the lookups in source order: `td`,
`dd_auto`, `ll_auto`, `ii_auto` (optional), then the triangle loop
`for bin2 in range(bin1, nbins)` doing `dd`, `ll`, `ii` (optional), then the
square loop `for bin2 in range(nbins)` doing `dl`, `di` (optional),
`il` (optional). -/
def readRow (all_cl : String → Option α) (nbins bin1 : Nat) :
    Except String (SpectraRow α) :=
  bindE (getItem all_cl (tdKey bin1)) fun td =>
  bindE (getItem all_cl (ddAutoKey bin1)) fun dda =>
  bindE (getItem all_cl (llAutoKey bin1)) fun lla =>
  bindE (mapE (fun bin2 =>
      bindE (getItem all_cl (ddKey bin1 bin2)) fun d =>
      bindE (getItem all_cl (llKey bin1 bin2)) fun l2 =>
      Except.ok (bin2, d, l2, all_cl (iiKey bin1 bin2)))
    (List.range' bin1 (nbins - bin1))) fun tri =>
  bindE (mapE (fun bin2 =>
      bindE (getItem all_cl (dlKey bin1 bin2)) fun dlv =>
      Except.ok (bin2, dlv, all_cl (diKey bin1 bin2), all_cl (ilKey bin1 bin2)))
    (List.range nbins)) fun sq =>
  Except.ok
    { td := td
      dd_auto := dda
      ll_auto := lla
      ii_auto := all_cl (iiAutoKey bin1)
      ddRow := tri.map (fun p => (p.1, p.2.1))
      llRow := tri.map (fun p => (p.1, p.2.2.1))
      iiRow := tri.map (fun p => (p.1, p.2.2.2))
      dlRow := sq.map (fun p => (p.1, p.2.1))
      diRow := sq.map (fun p => (p.1, p.2.2.1))
      ilRow := sq.map (fun p => (p.1, p.2.2.2)) }

/-- `read_sfx_class_cls_file(nbins, cl_filepath)` after the archive has been
deserialized: the flat mapping `all_cl` is the input, required keys are read
with `[]` (a `KeyError` aborts the call), optional intrinsic-alignment keys
with `.get`, and the nested result dictionary is assembled at the end. -/
def read_sfx_class_cls_file (nbins : Nat) (all_cl : String → Option α) :
    Except String (ClDict α) :=
  bindE (getItem all_cl "ell1") fun l =>
  bindE (getItem all_cl "ell2") fun lls =>
  bindE (getItem all_cl "tt") fun tt =>
  bindE (getItem all_cl "ee") fun ee =>
  bindE (getItem all_cl "te") fun te =>
  bindE (getItem all_cl "pp") fun pp =>
  bindE (getItem all_cl "tp") fun tp =>
  bindE (getItem all_cl "ep") fun ep =>
  bindE (mapE (fun bin1 =>
      bindE (readRow all_cl nbins bin1) fun r => Except.ok (bin1, r))
    (List.range nbins)) fun rows =>
  Except.ok
    { l := l, lls := lls, tt := tt, ee := ee, te := te, pp := pp, tp := tp, ep := ep
      dd := rows.map (fun p => (p.1, p.2.ddRow))
      ll := rows.map (fun p => (p.1, p.2.llRow))
      ii := rows.map (fun p => (p.1, p.2.iiRow))
      td := rows.map (fun p => (p.1, p.2.td))
      dd_auto := rows.map (fun p => (p.1, p.2.dd_auto))
      ll_auto := rows.map (fun p => (p.1, p.2.ll_auto))
      ii_auto := rows.map (fun p => (p.1, p.2.ii_auto))
      dl := rows.map (fun p => (p.1, p.2.dlRow))
      di := rows.map (fun p => (p.1, p.2.diRow))
      il := rows.map (fun p => (p.1, p.2.ilRow)) }

/-- The keys `read_sfx_class_cls_file` reads with `[]`: absence of any of
them raises a `KeyError`. -/
def requiredKeys (nbins : Nat) : List String :=
  ["ell1", "ell2", "tt", "ee", "te", "pp", "tp", "ep"]
    ++ (List.range nbins).map tdKey
    ++ (List.range nbins).map ddAutoKey
    ++ (List.range nbins).map llAutoKey
    ++ (List.range nbins).flatMap
        (fun b1 => (List.range' b1 (nbins - b1)).map (fun b2 => ddKey b1 b2))
    ++ (List.range nbins).flatMap
        (fun b1 => (List.range' b1 (nbins - b1)).map (fun b2 => llKey b1 b2))
    ++ (List.range nbins).flatMap
        (fun b1 => (List.range nbins).map (fun b2 => dlKey b1 b2))

/-- The intrinsic-alignment keys `read_sfx_class_cls_file` reads with
`.get`: absence resolves to `None`. -/
def optionalKeys (nbins : Nat) : List String :=
  (List.range nbins).map iiAutoKey
    ++ (List.range nbins).flatMap
        (fun b1 => (List.range' b1 (nbins - b1)).map (fun b2 => iiKey b1 b2))
    ++ (List.range nbins).flatMap
        (fun b1 => (List.range nbins).map (fun b2 => diKey b1 b2))
    ++ (List.range nbins).flatMap
        (fun b1 => (List.range nbins).map (fun b2 => ilKey b1 b2))

/-- Total description of one outer-loop row on the success path: every
required lookup is replaced by `getD default`, every optional lookup by the
plain `Option` value.  Used only to characterize what
`read_sfx_class_cls_file` returns when all required keys are present. -/
def rowOf [Inhabited α] (all_cl : String → Option α) (nbins bin1 : Nat) :
    SpectraRow α :=
  { td := (all_cl (tdKey bin1)).getD default
    dd_auto := (all_cl (ddAutoKey bin1)).getD default
    ll_auto := (all_cl (llAutoKey bin1)).getD default
    ii_auto := all_cl (iiAutoKey bin1)
    ddRow := (List.range' bin1 (nbins - bin1)).map
      (fun b2 => (b2, (all_cl (ddKey bin1 b2)).getD default))
    llRow := (List.range' bin1 (nbins - bin1)).map
      (fun b2 => (b2, (all_cl (llKey bin1 b2)).getD default))
    iiRow := (List.range' bin1 (nbins - bin1)).map
      (fun b2 => (b2, all_cl (iiKey bin1 b2)))
    dlRow := (List.range nbins).map
      (fun b2 => (b2, (all_cl (dlKey bin1 b2)).getD default))
    diRow := (List.range nbins).map
      (fun b2 => (b2, all_cl (diKey bin1 b2)))
    ilRow := (List.range nbins).map
      (fun b2 => (b2, all_cl (ilKey bin1 b2))) }

/-- Total description of the whole result of `read_sfx_class_cls_file` on
the success path. -/
def read_sfx_total [Inhabited α] (nbins : Nat) (all_cl : String → Option α) :
    ClDict α :=
  { l := (all_cl "ell1").getD default
    lls := (all_cl "ell2").getD default
    tt := (all_cl "tt").getD default
    ee := (all_cl "ee").getD default
    te := (all_cl "te").getD default
    pp := (all_cl "pp").getD default
    tp := (all_cl "tp").getD default
    ep := (all_cl "ep").getD default
    dd := (List.range nbins).map (fun b1 => (b1, (rowOf all_cl nbins b1).ddRow))
    ll := (List.range nbins).map (fun b1 => (b1, (rowOf all_cl nbins b1).llRow))
    ii := (List.range nbins).map (fun b1 => (b1, (rowOf all_cl nbins b1).iiRow))
    td := (List.range nbins).map (fun b1 => (b1, (rowOf all_cl nbins b1).td))
    dd_auto := (List.range nbins).map (fun b1 => (b1, (rowOf all_cl nbins b1).dd_auto))
    ll_auto := (List.range nbins).map (fun b1 => (b1, (rowOf all_cl nbins b1).ll_auto))
    ii_auto := (List.range nbins).map (fun b1 => (b1, (rowOf all_cl nbins b1).ii_auto))
    dl := (List.range nbins).map (fun b1 => (b1, (rowOf all_cl nbins b1).dlRow))
    di := (List.range nbins).map (fun b1 => (b1, (rowOf all_cl nbins b1).diRow))
    il := (List.range nbins).map (fun b1 => (b1, (rowOf all_cl nbins b1).ilRow)) }

/-! ### Membership facts about `requiredKeys` -/

theorem mem_req_of_lit (k : String)
    (h : k ∈ (["ell1", "ell2", "tt", "ee", "te", "pp", "tp", "ep"] : List String))
    (nbins : Nat) : k ∈ requiredKeys nbins := by
  simp only [requiredKeys, List.mem_append]
  exact Or.inl (Or.inl (Or.inl (Or.inl (Or.inl (Or.inl h)))))

theorem mem_req_td (nbins b : Nat) (hb : b < nbins) : tdKey b ∈ requiredKeys nbins := by
  simp only [requiredKeys, List.mem_append, List.mem_map, List.mem_range]
  exact Or.inl (Or.inl (Or.inl (Or.inl (Or.inl (Or.inr ⟨b, hb, rfl⟩)))))

theorem mem_req_ddAuto (nbins b : Nat) (hb : b < nbins) :
    ddAutoKey b ∈ requiredKeys nbins := by
  simp only [requiredKeys, List.mem_append, List.mem_map, List.mem_range]
  exact Or.inl (Or.inl (Or.inl (Or.inl (Or.inr ⟨b, hb, rfl⟩))))

theorem mem_req_llAuto (nbins b : Nat) (hb : b < nbins) :
    llAutoKey b ∈ requiredKeys nbins := by
  simp only [requiredKeys, List.mem_append, List.mem_map, List.mem_range]
  exact Or.inl (Or.inl (Or.inl (Or.inr ⟨b, hb, rfl⟩)))

theorem mem_req_dd (nbins b1 b2 : Nat) (h12 : b1 ≤ b2) (hb2 : b2 < nbins) :
    ddKey b1 b2 ∈ requiredKeys nbins := by
  simp only [requiredKeys, List.mem_append, List.mem_map, List.mem_range,
    List.mem_flatMap, List.mem_range'_1]
  exact Or.inl (Or.inl (Or.inr ⟨b1, lt_of_le_of_lt h12 hb2, b2, ⟨h12, by omega⟩, rfl⟩))

theorem mem_req_ll (nbins b1 b2 : Nat) (h12 : b1 ≤ b2) (hb2 : b2 < nbins) :
    llKey b1 b2 ∈ requiredKeys nbins := by
  simp only [requiredKeys, List.mem_append, List.mem_map, List.mem_range,
    List.mem_flatMap, List.mem_range'_1]
  exact Or.inl (Or.inr ⟨b1, lt_of_le_of_lt h12 hb2, b2, ⟨h12, by omega⟩, rfl⟩)

theorem mem_req_dl (nbins b1 b2 : Nat) (hb1 : b1 < nbins) (hb2 : b2 < nbins) :
    dlKey b1 b2 ∈ requiredKeys nbins := by
  simp only [requiredKeys, List.mem_append, List.mem_map, List.mem_range,
    List.mem_flatMap]
  exact Or.inr ⟨b1, hb1, b2, hb2, rfl⟩

theorem opt_eq_some_getD [Inhabited α] (o : Option α) (h : o.isSome = true) :
    o = some (o.getD default) := by
  cases o with
  | none => cases h
  | some v => rfl

theorem getItem_of_isSome [Inhabited α] (d : String → Option α) (k : String)
    (h : (d k).isSome = true) : getItem d k = Except.ok ((d k).getD default) := by
  rw [getItem]
  cases ho : d k with
  | none => rw [ho] at h; cases h
  | some v => rfl

/-- On an archive that has every required key, one outer-loop row evaluates
to the total description `rowOf`. -/
theorem readRow_eq_rowOf [Inhabited α] (all_cl : String → Option α) (nbins bin1 : Nat)
    (hk : ∀ k ∈ requiredKeys nbins, (all_cl k).isSome = true) (hb1 : bin1 < nbins) :
    readRow all_cl nbins bin1 = Except.ok (rowOf all_cl nbins bin1) := by
  rw [readRow]
  rw [getItem_of_isSome all_cl _ (hk _ (mem_req_td nbins bin1 hb1))]
  rw [getItem_of_isSome all_cl _ (hk _ (mem_req_ddAuto nbins bin1 hb1))]
  rw [getItem_of_isSome all_cl _ (hk _ (mem_req_llAuto nbins bin1 hb1))]
  rw [mapE_eq_map _
    (fun b2 => (b2, (all_cl (ddKey bin1 b2)).getD default,
      (all_cl (llKey bin1 b2)).getD default, all_cl (iiKey bin1 b2)))
    _ ?_]
  · rw [mapE_eq_map _
      (fun b2 => (b2, (all_cl (dlKey bin1 b2)).getD default,
        all_cl (diKey bin1 b2), all_cl (ilKey bin1 b2)))
      _ ?_]
    · simp only [bindE_ok, rowOf, List.map_map]
      rfl
    · intro b2 hb2
      rw [List.mem_range] at hb2
      rw [getItem_of_isSome all_cl _ (hk _ (mem_req_dl nbins bin1 b2 hb1 hb2))]
      rfl
  · intro b2 hb2
    rw [List.mem_range'_1] at hb2
    have h12 : bin1 ≤ b2 := hb2.1
    have hlt : b2 < nbins := by omega
    rw [getItem_of_isSome all_cl _ (hk _ (mem_req_dd nbins bin1 b2 h12 hlt))]
    rw [bindE_ok]
    rw [getItem_of_isSome all_cl _ (hk _ (mem_req_ll nbins bin1 b2 h12 hlt))]
    rfl

/-- On an archive that has every required key, `read_sfx_class_cls_file`
succeeds and returns exactly the total description `read_sfx_total`. -/
theorem read_eq_total [Inhabited α] (nbins : Nat) (all_cl : String → Option α)
    (hk : ∀ k ∈ requiredKeys nbins, (all_cl k).isSome = true) :
    read_sfx_class_cls_file nbins all_cl = Except.ok (read_sfx_total nbins all_cl) := by
  rw [read_sfx_class_cls_file]
  rw [getItem_of_isSome all_cl _ (hk _ (mem_req_of_lit "ell1" (by simp) nbins))]
  rw [getItem_of_isSome all_cl _ (hk _ (mem_req_of_lit "ell2" (by simp) nbins))]
  rw [getItem_of_isSome all_cl _ (hk _ (mem_req_of_lit "tt" (by simp) nbins))]
  rw [getItem_of_isSome all_cl _ (hk _ (mem_req_of_lit "ee" (by simp) nbins))]
  rw [getItem_of_isSome all_cl _ (hk _ (mem_req_of_lit "te" (by simp) nbins))]
  rw [getItem_of_isSome all_cl _ (hk _ (mem_req_of_lit "pp" (by simp) nbins))]
  rw [getItem_of_isSome all_cl _ (hk _ (mem_req_of_lit "tp" (by simp) nbins))]
  rw [getItem_of_isSome all_cl _ (hk _ (mem_req_of_lit "ep" (by simp) nbins))]
  rw [mapE_eq_map _ (fun b1 => (b1, rowOf all_cl nbins b1)) _ ?_]
  · simp only [bindE_ok, read_sfx_total, List.map_map]
    rfl
  · intro b1 hb1
    rw [List.mem_range] at hb1
    rw [readRow_eq_rowOf all_cl nbins b1 hk hb1]
    rfl

/-- Lookup in an association list built by mapping over `List.range'`. -/
theorem lookup_map_range' (g : Nat → β) :
    ∀ (n s b : Nat), (((List.range' s n).map (fun a => (a, g a))).lookup b)
      = if s ≤ b ∧ b < s + n then some (g b) else none := by
  intro n
  induction n with
  | zero => intro s b; rw [if_neg (by omega)]; simp
  | succ m ih =>
    intro s b
    rw [List.range'_succ]
    by_cases hbs : b = s
    · subst hbs
      simp [List.lookup]
    · have hne : (b == s) = false := by simp [hbs]
      simp only [List.map_cons, List.lookup, hne, ih (s + 1) b]
      by_cases h1 : s + 1 ≤ b ∧ b < s + 1 + m
      · rw [if_pos h1, if_pos (by omega)]
      · rw [if_neg h1, if_neg (by omega)]

theorem lookup_map_range (g : Nat → β) (n b : Nat) :
    (((List.range n).map (fun a => (a, g a))).lookup b)
      = if b < n then some (g b) else none := by
  rw [List.range_eq_range', lookup_map_range' g n 0 b]
  by_cases h : b < n
  · rw [if_pos (by omega), if_pos h]
  · rw [if_neg (by omega), if_neg h]

/-- Entry of a nested bin-indexed mapping at `(b1, b2)`. -/
def entry2 (m : List (Nat × List (Nat × β))) (b1 b2 : Nat) : Option β :=
  match m.lookup b1 with
  | none => none
  | some row => row.lookup b2

theorem bindE_eq_ok (x : Except ε α) (f : α → Except ε β) (b : β) :
    bindE x f = Except.ok b ↔ ∃ a, x = Except.ok a ∧ f a = Except.ok b := by
  cases x with
  | error e => simp [bindE]
  | ok a => simp [bindE]

theorem bindE_eq_error (x : Except ε α) (f : α → Except ε β) (e : ε) :
    bindE x f = Except.error e ↔
      x = Except.error e ∨ ∃ a, x = Except.ok a ∧ f a = Except.error e := by
  cases x with
  | error e2 => simp [bindE]
  | ok a => simp [bindE]

theorem getItem_eq_ok (d : String → Option α) (k : String) (v : α) :
    getItem d k = Except.ok v ↔ d k = some v := by
  rw [getItem]
  cases h : d k <;> simp

theorem getItem_eq_error (d : String → Option α) (k e : String) :
    getItem d k = Except.error e ↔ d k = none ∧ e = k := by
  rw [getItem]
  cases h : d k <;> simp [eq_comm]

theorem mapE_ok_forall (f : α → Except ε β) :
    ∀ (l : List α) (ys : List β), mapE f l = Except.ok ys →
      ∀ a ∈ l, ∃ b, f a = Except.ok b := by
  intro l
  induction l with
  | nil => intro ys _ a ha; cases ha
  | cons x xs ih =>
    intro ys h a ha
    cases hfx : f x with
    | error e => rw [mapE, hfx] at h; cases h
    | ok b =>
      rw [mapE, hfx] at h
      cases hrec : mapE f xs with
      | error e => rw [hrec] at h; cases h
      | ok bs =>
        rcases List.mem_cons.1 ha with rfl | hmem
        · exact ⟨b, hfx⟩
        · exact ih bs hrec a hmem

/-- If a row evaluation raises a `KeyError`, the key named is a required key
that is missing from the archive. -/
theorem readRow_error_inv (all_cl : String → Option α) (nbins b1 : Nat) (hb1 : b1 < nbins)
    (k : String) (h : readRow all_cl nbins b1 = Except.error k) :
    k ∈ requiredKeys nbins ∧ all_cl k = none := by
  rw [readRow] at h
  rcases (bindE_eq_error _ _ _).1 h with h1 | ⟨td, _, h1⟩
  · obtain ⟨hnone, rfl⟩ := (getItem_eq_error _ _ _).1 h1
    exact ⟨mem_req_td nbins b1 hb1, hnone⟩
  rcases (bindE_eq_error _ _ _).1 h1 with h2 | ⟨dda, _, h2⟩
  · obtain ⟨hnone, rfl⟩ := (getItem_eq_error _ _ _).1 h2
    exact ⟨mem_req_ddAuto nbins b1 hb1, hnone⟩
  rcases (bindE_eq_error _ _ _).1 h2 with h3 | ⟨lla, _, h3⟩
  · obtain ⟨hnone, rfl⟩ := (getItem_eq_error _ _ _).1 h3
    exact ⟨mem_req_llAuto nbins b1 hb1, hnone⟩
  rcases (bindE_eq_error _ _ _).1 h3 with h4 | ⟨tri, _, h4⟩
  · obtain ⟨b2, hb2, helem⟩ := mapE_error_inv _ _ h4
    rw [List.mem_range'_1] at hb2
    rcases (bindE_eq_error _ _ _).1 helem with h5 | ⟨d, _, h5⟩
    · obtain ⟨hnone, rfl⟩ := (getItem_eq_error _ _ _).1 h5
      exact ⟨mem_req_dd nbins b1 b2 hb2.1 (by omega), hnone⟩
    rcases (bindE_eq_error _ _ _).1 h5 with h6 | ⟨lv, _, h6⟩
    · obtain ⟨hnone, rfl⟩ := (getItem_eq_error _ _ _).1 h6
      exact ⟨mem_req_ll nbins b1 b2 hb2.1 (by omega), hnone⟩
    cases h6
  rcases (bindE_eq_error _ _ _).1 h4 with h5 | ⟨sq, _, h5⟩
  · obtain ⟨b2, hb2, helem⟩ := mapE_error_inv _ _ h5
    rw [List.mem_range] at hb2
    rcases (bindE_eq_error _ _ _).1 helem with h6 | ⟨dlv, _, h6⟩
    · obtain ⟨hnone, rfl⟩ := (getItem_eq_error _ _ _).1 h6
      exact ⟨mem_req_dl nbins b1 b2 hb1 hb2, hnone⟩
    cases h6
  cases h5

/-- If the reshaper raises a `KeyError`, the key it names is a required key
missing from the archive. -/
theorem read_error_inv (nbins : Nat) (all_cl : String → Option α) (k : String)
    (h : read_sfx_class_cls_file nbins all_cl = Except.error k) :
    k ∈ requiredKeys nbins ∧ all_cl k = none := by
  rw [read_sfx_class_cls_file] at h
  rcases (bindE_eq_error _ _ _).1 h with h1 | ⟨v1, _, h1⟩
  · obtain ⟨hnone, rfl⟩ := (getItem_eq_error _ _ _).1 h1
    exact ⟨mem_req_of_lit _ (by simp) nbins, hnone⟩
  rcases (bindE_eq_error _ _ _).1 h1 with h2 | ⟨v2, _, h2⟩
  · obtain ⟨hnone, rfl⟩ := (getItem_eq_error _ _ _).1 h2
    exact ⟨mem_req_of_lit _ (by simp) nbins, hnone⟩
  rcases (bindE_eq_error _ _ _).1 h2 with h3 | ⟨v3, _, h3⟩
  · obtain ⟨hnone, rfl⟩ := (getItem_eq_error _ _ _).1 h3
    exact ⟨mem_req_of_lit _ (by simp) nbins, hnone⟩
  rcases (bindE_eq_error _ _ _).1 h3 with h4 | ⟨v4, _, h4⟩
  · obtain ⟨hnone, rfl⟩ := (getItem_eq_error _ _ _).1 h4
    exact ⟨mem_req_of_lit _ (by simp) nbins, hnone⟩
  rcases (bindE_eq_error _ _ _).1 h4 with h5 | ⟨v5, _, h5⟩
  · obtain ⟨hnone, rfl⟩ := (getItem_eq_error _ _ _).1 h5
    exact ⟨mem_req_of_lit _ (by simp) nbins, hnone⟩
  rcases (bindE_eq_error _ _ _).1 h5 with h6 | ⟨v6, _, h6⟩
  · obtain ⟨hnone, rfl⟩ := (getItem_eq_error _ _ _).1 h6
    exact ⟨mem_req_of_lit _ (by simp) nbins, hnone⟩
  rcases (bindE_eq_error _ _ _).1 h6 with h7 | ⟨v7, _, h7⟩
  · obtain ⟨hnone, rfl⟩ := (getItem_eq_error _ _ _).1 h7
    exact ⟨mem_req_of_lit _ (by simp) nbins, hnone⟩
  rcases (bindE_eq_error _ _ _).1 h7 with h8 | ⟨v8, _, h8⟩
  · obtain ⟨hnone, rfl⟩ := (getItem_eq_error _ _ _).1 h8
    exact ⟨mem_req_of_lit _ (by simp) nbins, hnone⟩
  rcases (bindE_eq_error _ _ _).1 h8 with h9 | ⟨rows, _, h9⟩
  · obtain ⟨b1, hb1, helem⟩ := mapE_error_inv _ _ h9
    rw [List.mem_range] at hb1
    rcases (bindE_eq_error _ _ _).1 helem with h10 | ⟨row, _, h10⟩
    · exact readRow_error_inv all_cl nbins b1 hb1 k h10
    cases h10
  cases h9

/-- If a row evaluation succeeds, all required keys it consults are
present. -/
theorem readRow_ok_pres (all_cl : String → Option α) (nbins b1 : Nat)
    (row : SpectraRow α) (h : readRow all_cl nbins b1 = Except.ok row) :
    (all_cl (tdKey b1)).isSome = true ∧ (all_cl (ddAutoKey b1)).isSome = true ∧
      (all_cl (llAutoKey b1)).isSome = true ∧
      (∀ b2, b1 ≤ b2 → b2 < nbins →
        (all_cl (ddKey b1 b2)).isSome = true ∧ (all_cl (llKey b1 b2)).isSome = true) ∧
      (∀ b2, b2 < nbins → (all_cl (dlKey b1 b2)).isSome = true) := by
  rw [readRow] at h
  obtain ⟨td, htd, h⟩ := (bindE_eq_ok _ _ _).1 h
  obtain ⟨dda, hdda, h⟩ := (bindE_eq_ok _ _ _).1 h
  obtain ⟨lla, hlla, h⟩ := (bindE_eq_ok _ _ _).1 h
  obtain ⟨tri, htri, h⟩ := (bindE_eq_ok _ _ _).1 h
  obtain ⟨sq, hsq, h⟩ := (bindE_eq_ok _ _ _).1 h
  refine ⟨?_, ?_, ?_, ?_, ?_⟩
  · rw [(getItem_eq_ok _ _ _).1 htd]; rfl
  · rw [(getItem_eq_ok _ _ _).1 hdda]; rfl
  · rw [(getItem_eq_ok _ _ _).1 hlla]; rfl
  · intro b2 h12 hlt
    obtain ⟨p, hp⟩ := mapE_ok_forall _ _ _ htri b2 (by rw [List.mem_range'_1]; omega)
    obtain ⟨d, hd, hp⟩ := (bindE_eq_ok _ _ _).1 hp
    obtain ⟨lv, hlv, _⟩ := (bindE_eq_ok _ _ _).1 hp
    constructor
    · rw [(getItem_eq_ok _ _ _).1 hd]; rfl
    · rw [(getItem_eq_ok _ _ _).1 hlv]; rfl
  · intro b2 hlt
    obtain ⟨p, hp⟩ := mapE_ok_forall _ _ _ hsq b2 (by rw [List.mem_range]; omega)
    obtain ⟨dlv, hdlv, _⟩ := (bindE_eq_ok _ _ _).1 hp
    rw [(getItem_eq_ok _ _ _).1 hdlv]; rfl

/-- If the reshaper succeeds, every required key is present in the
archive. -/
theorem read_ok_pres (nbins : Nat) (all_cl : String → Option α) (r : ClDict α)
    (h : read_sfx_class_cls_file nbins all_cl = Except.ok r) :
    ∀ k ∈ requiredKeys nbins, (all_cl k).isSome = true := by
  rw [read_sfx_class_cls_file] at h
  obtain ⟨v1, h1, h⟩ := (bindE_eq_ok _ _ _).1 h
  obtain ⟨v2, h2, h⟩ := (bindE_eq_ok _ _ _).1 h
  obtain ⟨v3, h3, h⟩ := (bindE_eq_ok _ _ _).1 h
  obtain ⟨v4, h4, h⟩ := (bindE_eq_ok _ _ _).1 h
  obtain ⟨v5, h5, h⟩ := (bindE_eq_ok _ _ _).1 h
  obtain ⟨v6, h6, h⟩ := (bindE_eq_ok _ _ _).1 h
  obtain ⟨v7, h7, h⟩ := (bindE_eq_ok _ _ _).1 h
  obtain ⟨v8, h8, h⟩ := (bindE_eq_ok _ _ _).1 h
  obtain ⟨rows, hrows, _⟩ := (bindE_eq_ok _ _ _).1 h
  have hrow : ∀ b1, b1 < nbins → ∃ row, readRow all_cl nbins b1 = Except.ok row := by
    intro b1 hb1
    obtain ⟨p, hp⟩ := mapE_ok_forall _ _ _ hrows b1 (by rw [List.mem_range]; omega)
    obtain ⟨row, hrowE, _⟩ := (bindE_eq_ok _ _ _).1 hp
    exact ⟨row, hrowE⟩
  intro k hk
  simp only [requiredKeys, List.mem_append, List.mem_map, List.mem_flatMap,
    List.mem_range, List.mem_range'_1] at hk
  rcases hk with ((((((hk | ⟨b, hb, rfl⟩) | ⟨b, hb, rfl⟩) | ⟨b, hb, rfl⟩) |
      ⟨b1, hb1, b2, hb2, rfl⟩) | ⟨b1, hb1, b2, hb2, rfl⟩) | ⟨b1, hb1, b2, hb2, rfl⟩)
  · have hok : ∀ (s : String) (v : α), all_cl s = some v → (all_cl s).isSome = true := by
      intro s v hv; rw [hv]; rfl
    simp only [List.mem_cons, List.not_mem_nil, or_false] at hk
    rcases hk with rfl | rfl | rfl | rfl | rfl | rfl | rfl | rfl
    · exact hok _ _ ((getItem_eq_ok _ _ _).1 h1)
    · exact hok _ _ ((getItem_eq_ok _ _ _).1 h2)
    · exact hok _ _ ((getItem_eq_ok _ _ _).1 h3)
    · exact hok _ _ ((getItem_eq_ok _ _ _).1 h4)
    · exact hok _ _ ((getItem_eq_ok _ _ _).1 h5)
    · exact hok _ _ ((getItem_eq_ok _ _ _).1 h6)
    · exact hok _ _ ((getItem_eq_ok _ _ _).1 h7)
    · exact hok _ _ ((getItem_eq_ok _ _ _).1 h8)
  · obtain ⟨row, hR⟩ := hrow b hb
    exact (readRow_ok_pres all_cl nbins b row hR).1
  · obtain ⟨row, hR⟩ := hrow b hb
    exact (readRow_ok_pres all_cl nbins b row hR).2.1
  · obtain ⟨row, hR⟩ := hrow b hb
    exact (readRow_ok_pres all_cl nbins b row hR).2.2.1
  · obtain ⟨row, hR⟩ := hrow b1 hb1
    exact ((readRow_ok_pres all_cl nbins b1 row hR).2.2.2.1 b2 hb2.1 (by omega)).1
  · obtain ⟨row, hR⟩ := hrow b1 hb1
    exact ((readRow_ok_pres all_cl nbins b1 row hR).2.2.2.1 b2 hb2.1 (by omega)).2
  · obtain ⟨row, hR⟩ := hrow b1 hb1
    exact (readRow_ok_pres all_cl nbins b1 row hR).2.2.2.2 b2 hb2

theorem mem_opt_iiAuto (nbins b : Nat) (hb : b < nbins) :
    iiAutoKey b ∈ optionalKeys nbins := by
  simp only [optionalKeys, List.mem_append, List.mem_map, List.mem_range]
  exact Or.inl (Or.inl (Or.inl ⟨b, hb, rfl⟩))

theorem mem_opt_ii (nbins b1 b2 : Nat) (h12 : b1 ≤ b2) (hb2 : b2 < nbins) :
    iiKey b1 b2 ∈ optionalKeys nbins := by
  simp only [optionalKeys, List.mem_append, List.mem_map, List.mem_range,
    List.mem_flatMap, List.mem_range'_1]
  exact Or.inl (Or.inl (Or.inr ⟨b1, lt_of_le_of_lt h12 hb2, b2, ⟨h12, by omega⟩, rfl⟩))

theorem mem_opt_di (nbins b1 b2 : Nat) (hb1 : b1 < nbins) (hb2 : b2 < nbins) :
    diKey b1 b2 ∈ optionalKeys nbins := by
  simp only [optionalKeys, List.mem_append, List.mem_map, List.mem_range,
    List.mem_flatMap]
  exact Or.inl (Or.inr ⟨b1, hb1, b2, hb2, rfl⟩)

theorem mem_opt_il (nbins b1 b2 : Nat) (hb1 : b1 < nbins) (hb2 : b2 < nbins) :
    ilKey b1 b2 ∈ optionalKeys nbins := by
  simp only [optionalKeys, List.mem_append, List.mem_map, List.mem_range,
    List.mem_flatMap]
  exact Or.inr ⟨b1, hb1, b2, hb2, rfl⟩

theorem getItem_congr (a1 a2 : String → Option α) (k : String) (h : a1 k = a2 k) :
    getItem a1 k = getItem a2 k := by
  rw [getItem, getItem, h]

/-- A row evaluation only depends on the archive through the required and
optional keys it consults. -/
theorem readRow_congr (a1 a2 : String → Option α) (nbins b1 : Nat) (hb1 : b1 < nbins)
    (h : ∀ k ∈ requiredKeys nbins ++ optionalKeys nbins, a1 k = a2 k) :
    readRow a1 nbins b1 = readRow a2 nbins b1 := by
  have hreq : ∀ k ∈ requiredKeys nbins, a1 k = a2 k :=
    fun k hk => h k (List.mem_append.2 (Or.inl hk))
  have hopt : ∀ k ∈ optionalKeys nbins, a1 k = a2 k :=
    fun k hk => h k (List.mem_append.2 (Or.inr hk))
  rw [readRow, readRow]
  rw [getItem_congr a1 a2 _ (hreq _ (mem_req_td nbins b1 hb1))]
  congr 1
  funext td
  rw [getItem_congr a1 a2 _ (hreq _ (mem_req_ddAuto nbins b1 hb1))]
  congr 1
  funext dda
  rw [getItem_congr a1 a2 _ (hreq _ (mem_req_llAuto nbins b1 hb1))]
  congr 1
  funext lla
  rw [mapE_congr _ _ (List.range' b1 (nbins - b1)) ?_]
  · congr 1
    funext tri
    rw [mapE_congr _ _ (List.range nbins) ?_]
    · congr 1
      funext sq
      rw [hopt _ (mem_opt_iiAuto nbins b1 hb1)]
    · intro b2 hb2
      rw [List.mem_range] at hb2
      rw [getItem_congr a1 a2 _ (hreq _ (mem_req_dl nbins b1 b2 hb1 hb2))]
      congr 1
      funext dlv
      rw [hopt _ (mem_opt_di nbins b1 b2 hb1 hb2), hopt _ (mem_opt_il nbins b1 b2 hb1 hb2)]
  · intro b2 hb2
    rw [List.mem_range'_1] at hb2
    have h12 : b1 ≤ b2 := hb2.1
    have hlt : b2 < nbins := by omega
    rw [getItem_congr a1 a2 _ (hreq _ (mem_req_dd nbins b1 b2 h12 hlt))]
    congr 1
    funext d
    rw [getItem_congr a1 a2 _ (hreq _ (mem_req_ll nbins b1 b2 h12 hlt))]
    congr 1
    funext lv
    rw [hopt _ (mem_opt_ii nbins b1 b2 h12 hlt)]

/-- The whole reshaping only depends on the archive through the required and
optional keys. -/
theorem read_congr (nbins : Nat) (a1 a2 : String → Option α)
    (h : ∀ k ∈ requiredKeys nbins ++ optionalKeys nbins, a1 k = a2 k) :
    read_sfx_class_cls_file nbins a1 = read_sfx_class_cls_file nbins a2 := by
  have hreq : ∀ k ∈ requiredKeys nbins, a1 k = a2 k :=
    fun k hk => h k (List.mem_append.2 (Or.inl hk))
  rw [read_sfx_class_cls_file, read_sfx_class_cls_file]
  rw [getItem_congr a1 a2 _ (hreq _ (mem_req_of_lit "ell1" (by simp) nbins))]
  congr 1
  funext v1
  rw [getItem_congr a1 a2 _ (hreq _ (mem_req_of_lit "ell2" (by simp) nbins))]
  congr 1
  funext v2
  rw [getItem_congr a1 a2 _ (hreq _ (mem_req_of_lit "tt" (by simp) nbins))]
  congr 1
  funext v3
  rw [getItem_congr a1 a2 _ (hreq _ (mem_req_of_lit "ee" (by simp) nbins))]
  congr 1
  funext v4
  rw [getItem_congr a1 a2 _ (hreq _ (mem_req_of_lit "te" (by simp) nbins))]
  congr 1
  funext v5
  rw [getItem_congr a1 a2 _ (hreq _ (mem_req_of_lit "pp" (by simp) nbins))]
  congr 1
  funext v6
  rw [getItem_congr a1 a2 _ (hreq _ (mem_req_of_lit "tp" (by simp) nbins))]
  congr 1
  funext v7
  rw [getItem_congr a1 a2 _ (hreq _ (mem_req_of_lit "ep" (by simp) nbins))]
  congr 1
  funext v8
  rw [mapE_congr _ _ (List.range nbins) ?_]
  intro b1 hb1
  rw [List.mem_range] at hb1
  rw [readRow_congr a1 a2 nbins b1 hb1 h]

theorem entry2_tri (g : Nat → Nat → β) (nbins b1 b2 : Nat) :
    entry2 ((List.range nbins).map
        (fun a => (a, (List.range' a (nbins - a)).map (fun b => (b, g a b))))) b1 b2
      = if b1 < nbins ∧ b1 ≤ b2 ∧ b2 < nbins then some (g b1 b2) else none := by
  rw [entry2]
  rw [lookup_map_range (fun a => (List.range' a (nbins - a)).map (fun b => (b, g a b))) nbins b1]
  by_cases h1 : b1 < nbins
  · rw [if_pos h1]
    show ((List.range' b1 (nbins - b1)).map (fun b => (b, g b1 b))).lookup b2 = _
    rw [lookup_map_range' (g b1) (nbins - b1) b1 b2]
    by_cases h2 : b1 ≤ b2 ∧ b2 < b1 + (nbins - b1)
    · rw [if_pos h2, if_pos (by omega)]
    · rw [if_neg h2, if_neg (by omega)]
  · rw [if_neg h1, if_neg (by omega)]

theorem entry2_square (g : Nat → Nat → β) (nbins b1 b2 : Nat) :
    entry2 ((List.range nbins).map
        (fun a => (a, (List.range nbins).map (fun b => (b, g a b))))) b1 b2
      = if b1 < nbins ∧ b2 < nbins then some (g b1 b2) else none := by
  rw [entry2]
  rw [lookup_map_range (fun a => (List.range nbins).map (fun b => (b, g a b))) nbins b1]
  by_cases h1 : b1 < nbins
  · rw [if_pos h1]
    show ((List.range nbins).map (fun b => (b, g b1 b))).lookup b2 = _
    rw [lookup_map_range (g b1) nbins b2]
    by_cases h2 : b2 < nbins
    · rw [if_pos h2, if_pos (by omega)]
    · rw [if_neg h2, if_neg (by omega)]
  · rw [if_neg h1, if_neg (by omega)]

/-- A minimal archive for `nbins = 1` holding every required key (value `0`)
and no optional intrinsic-alignment key. -/
def sampleArchive : String → Option Nat :=
  fun k => if k ∈ requiredKeys 1 then some 0 else none

/-- `sampleArchive` with the required key `"d0d0"` removed. -/
def sampleArchiveNoD0d0 : String → Option Nat :=
  fun k => if k = ddKey 0 0 then none else sampleArchive k

theorem map_fst_pair (g : Nat → β) (l : List Nat) :
    (l.map (fun a => (a, g a))).map Prod.fst = l := by
  induction l with
  | nil => rfl
  | cons x xs ih => simp only [List.map_cons, ih]

theorem snd_of_mem_map_pair (g : Nat → β) (l : List Nat) (p : Nat × β)
    (hp : p ∈ l.map (fun a => (a, g a))) : p.2 = g p.1 := by
  rcases List.mem_map.1 hp with ⟨a, _, rfl⟩
  rfl

/-- C1: for every `nbins ≥ 1` and archive containing all required keys,
`read_sfx_class_cls_file` succeeds and the nested `dd` and `ll` mappings
contain exactly the entries with `bin2 ≥ bin1` for `bin1, bin2 ∈ [0, nbins)`,
while `dl`, `di` and `il` contain exactly one entry per `(bin1, bin2)` pair
of the full `nbins × nbins` grid. -/
theorem read_sfx_triangle_square [Inhabited α] (nbins : Nat) (hn : 1 ≤ nbins)
    (all_cl : String → Option α)
    (hk : ∀ k ∈ requiredKeys nbins, (all_cl k).isSome = true) :
    ∃ r, read_sfx_class_cls_file nbins all_cl = Except.ok r ∧
      (∀ b1 b2, (entry2 r.dd b1 b2).isSome = true ↔ b1 < nbins ∧ b1 ≤ b2 ∧ b2 < nbins) ∧
      (∀ b1 b2, (entry2 r.ll b1 b2).isSome = true ↔ b1 < nbins ∧ b1 ≤ b2 ∧ b2 < nbins) ∧
      (∀ b1 b2, (entry2 r.dl b1 b2).isSome = true ↔ b1 < nbins ∧ b2 < nbins) ∧
      (∀ b1 b2, (entry2 r.di b1 b2).isSome = true ↔ b1 < nbins ∧ b2 < nbins) ∧
      (∀ b1 b2, (entry2 r.il b1 b2).isSome = true ↔ b1 < nbins ∧ b2 < nbins) ∧
      r.dd.map Prod.fst = List.range nbins ∧
      (∀ p ∈ r.dd, p.2.map Prod.fst = List.range' p.1 (nbins - p.1)) ∧
      r.ll.map Prod.fst = List.range nbins ∧
      (∀ p ∈ r.ll, p.2.map Prod.fst = List.range' p.1 (nbins - p.1)) ∧
      r.dl.map Prod.fst = List.range nbins ∧
      (∀ p ∈ r.dl, p.2.map Prod.fst = List.range nbins) ∧
      r.di.map Prod.fst = List.range nbins ∧
      (∀ p ∈ r.di, p.2.map Prod.fst = List.range nbins) ∧
      r.il.map Prod.fst = List.range nbins ∧
      (∀ p ∈ r.il, p.2.map Prod.fst = List.range nbins) := by
  refine ⟨read_sfx_total nbins all_cl, read_eq_total nbins all_cl hk,
    ?_, ?_, ?_, ?_, ?_, ?_, ?_, ?_, ?_, ?_, ?_, ?_, ?_, ?_, ?_⟩
  · intro b1 b2
    simp only [read_sfx_total, rowOf]
    rw [entry2_tri (fun a b => (all_cl (ddKey a b)).getD default) nbins b1 b2]
    by_cases h : b1 < nbins ∧ b1 ≤ b2 ∧ b2 < nbins
    · simp [h]
    · simp [h]
  · intro b1 b2
    simp only [read_sfx_total, rowOf]
    rw [entry2_tri (fun a b => (all_cl (llKey a b)).getD default) nbins b1 b2]
    by_cases h : b1 < nbins ∧ b1 ≤ b2 ∧ b2 < nbins
    · simp [h]
    · simp [h]
  · intro b1 b2
    simp only [read_sfx_total, rowOf]
    rw [entry2_square (fun a b => (all_cl (dlKey a b)).getD default) nbins b1 b2]
    by_cases h : b1 < nbins ∧ b2 < nbins
    · simp [h]
    · simp [h]
  · intro b1 b2
    simp only [read_sfx_total, rowOf]
    rw [entry2_square (fun a b => all_cl (diKey a b)) nbins b1 b2]
    by_cases h : b1 < nbins ∧ b2 < nbins
    · simp [h]
    · simp [h]
  · intro b1 b2
    simp only [read_sfx_total, rowOf]
    rw [entry2_square (fun a b => all_cl (ilKey a b)) nbins b1 b2]
    by_cases h : b1 < nbins ∧ b2 < nbins
    · simp [h]
    · simp [h]
  · simp only [read_sfx_total, rowOf]
    exact map_fst_pair _ _
  · intro p hp
    simp only [read_sfx_total, rowOf] at hp
    rw [snd_of_mem_map_pair _ _ p hp]
    exact map_fst_pair _ _
  · simp only [read_sfx_total, rowOf]
    exact map_fst_pair _ _
  · intro p hp
    simp only [read_sfx_total, rowOf] at hp
    rw [snd_of_mem_map_pair _ _ p hp]
    exact map_fst_pair _ _
  · simp only [read_sfx_total, rowOf]
    exact map_fst_pair _ _
  · intro p hp
    simp only [read_sfx_total, rowOf] at hp
    rw [snd_of_mem_map_pair _ _ p hp]
    exact map_fst_pair _ _
  · simp only [read_sfx_total, rowOf]
    exact map_fst_pair _ _
  · intro p hp
    simp only [read_sfx_total, rowOf] at hp
    rw [snd_of_mem_map_pair _ _ p hp]
    exact map_fst_pair _ _
  · simp only [read_sfx_total, rowOf]
    exact map_fst_pair _ _
  · intro p hp
    simp only [read_sfx_total, rowOf] at hp
    rw [snd_of_mem_map_pair _ _ p hp]
    exact map_fst_pair _ _

/-- C1 witness: the property instantiated at `nbins = 1` on a concrete
archive. -/
theorem read_sfx_triangle_square_witness :
    ∃ r, read_sfx_class_cls_file 1 sampleArchive = Except.ok r ∧
      (∀ b1 b2, (entry2 r.dd b1 b2).isSome = true ↔ b1 < 1 ∧ b1 ≤ b2 ∧ b2 < 1) ∧
      (∀ b1 b2, (entry2 r.ll b1 b2).isSome = true ↔ b1 < 1 ∧ b1 ≤ b2 ∧ b2 < 1) ∧
      (∀ b1 b2, (entry2 r.dl b1 b2).isSome = true ↔ b1 < 1 ∧ b2 < 1) ∧
      (∀ b1 b2, (entry2 r.di b1 b2).isSome = true ↔ b1 < 1 ∧ b2 < 1) ∧
      (∀ b1 b2, (entry2 r.il b1 b2).isSome = true ↔ b1 < 1 ∧ b2 < 1) ∧
      r.dd.map Prod.fst = List.range 1 ∧
      (∀ p ∈ r.dd, p.2.map Prod.fst = List.range' p.1 (1 - p.1)) ∧
      r.ll.map Prod.fst = List.range 1 ∧
      (∀ p ∈ r.ll, p.2.map Prod.fst = List.range' p.1 (1 - p.1)) ∧
      r.dl.map Prod.fst = List.range 1 ∧
      (∀ p ∈ r.dl, p.2.map Prod.fst = List.range 1) ∧
      r.di.map Prod.fst = List.range 1 ∧
      (∀ p ∈ r.di, p.2.map Prod.fst = List.range 1) ∧
      r.il.map Prod.fst = List.range 1 ∧
      (∀ p ∈ r.il, p.2.map Prod.fst = List.range 1) :=
  read_sfx_triangle_square 1 (by decide) sampleArchive (by decide)

/-- C2: a required key absent from the flat mapping makes the reshaping
abort with a key-not-found error naming a missing required key (no partial
result); if the given key is the only missing one, the error names exactly
that key. -/
theorem read_missing_key_raises (nbins : Nat) (hn : 1 ≤ nbins)
    (all_cl : String → Option α) (k : String)
    (hmem : k ∈ requiredKeys nbins) (hmiss : all_cl k = none) :
    (∃ e, read_sfx_class_cls_file nbins all_cl = Except.error e ∧
        e ∈ requiredKeys nbins ∧ all_cl e = none) ∧
      ((∀ k2 ∈ requiredKeys nbins, k2 ≠ k → (all_cl k2).isSome = true) →
        read_sfx_class_cls_file nbins all_cl = Except.error k) := by
  cases hres : read_sfx_class_cls_file nbins all_cl with
  | ok r =>
    have hsome := read_ok_pres nbins all_cl r hres k hmem
    rw [hmiss] at hsome
    cases hsome
  | error e =>
    obtain ⟨he1, he2⟩ := read_error_inv nbins all_cl e hres
    refine ⟨⟨e, rfl, he1, he2⟩, ?_⟩
    intro huniq
    by_cases hek : e = k
    · rw [hek]
    · have hsome := huniq e he1 hek
      rw [he2] at hsome
      cases hsome

/-- C2 witness: removing `"d0d0"` from the concrete archive at `nbins = 1`
makes the reshaping fail with exactly that key. -/
theorem read_missing_key_raises_witness :
    (∃ e, read_sfx_class_cls_file 1 sampleArchiveNoD0d0 = Except.error e ∧
        e ∈ requiredKeys 1 ∧ sampleArchiveNoD0d0 e = none) ∧
      ((∀ k2 ∈ requiredKeys 1, k2 ≠ ddKey 0 0 → (sampleArchiveNoD0d0 k2).isSome = true) →
        read_sfx_class_cls_file 1 sampleArchiveNoD0d0 = Except.error (ddKey 0 0)) :=
  read_missing_key_raises 1 (by decide) sampleArchiveNoD0d0 (ddKey 0 0)
    (by decide) (by decide)

/-- C3: with all required keys present, absent intrinsic-alignment keys do
not make the reshaping raise; the corresponding positions in `ii_auto`,
`ii`, `di` and `il` are still present in the output and hold the explicit
absent marker `none`. -/
theorem read_optional_ia_absent [Inhabited α] (nbins b1 b2 c2 : Nat) (hn : 1 ≤ nbins)
    (all_cl : String → Option α)
    (hk : ∀ k ∈ requiredKeys nbins, (all_cl k).isSome = true)
    (hb1 : b1 < nbins) (h12 : b1 ≤ b2) (hb2 : b2 < nbins) (hc2 : c2 < nbins)
    (hiiA : all_cl (iiAutoKey b1) = none) (hii : all_cl (iiKey b1 b2) = none)
    (hdi : all_cl (diKey b1 c2) = none) (hil : all_cl (ilKey b1 c2) = none) :
    ∃ r, read_sfx_class_cls_file nbins all_cl = Except.ok r ∧
      r.ii_auto.lookup b1 = some none ∧
      entry2 r.ii b1 b2 = some none ∧
      entry2 r.di b1 c2 = some none ∧
      entry2 r.il b1 c2 = some none := by
  refine ⟨read_sfx_total nbins all_cl, read_eq_total nbins all_cl hk, ?_, ?_, ?_, ?_⟩
  · simp only [read_sfx_total, rowOf]
    rw [lookup_map_range (fun b => all_cl (iiAutoKey b)) nbins b1, if_pos hb1, hiiA]
  · simp only [read_sfx_total, rowOf]
    rw [entry2_tri (fun a b => all_cl (iiKey a b)) nbins b1 b2,
      if_pos ⟨hb1, h12, hb2⟩, hii]
  · simp only [read_sfx_total, rowOf]
    rw [entry2_square (fun a b => all_cl (diKey a b)) nbins b1 c2,
      if_pos ⟨hb1, hc2⟩, hdi]
  · simp only [read_sfx_total, rowOf]
    rw [entry2_square (fun a b => all_cl (ilKey a b)) nbins b1 c2,
      if_pos ⟨hb1, hc2⟩, hil]

/-- C3 witness: the concrete archive at `nbins = 1` has no
intrinsic-alignment keys, and every optional position holds `none`. -/
theorem read_optional_ia_absent_witness :
    ∃ r, read_sfx_class_cls_file 1 sampleArchive = Except.ok r ∧
      r.ii_auto.lookup 0 = some none ∧
      entry2 r.ii 0 0 = some none ∧
      entry2 r.di 0 0 = some none ∧
      entry2 r.il 0 0 = some none :=
  read_optional_ia_absent 1 0 0 0 (by decide) sampleArchive (by decide)
    (by decide) (by decide) (by decide) (by decide)
    (by decide) (by decide) (by decide) (by decide)

/-- C4: the reshaping is a pure function of `nbins` and the archive values
at the keys it consults: archives agreeing on all required and optional keys
give identical results; in particular two calls on the same archive and
`nbins` yield an identical result. -/
theorem read_sfx_deterministic (nbins : Nat) (a1 a2 : String → Option α)
    (h : ∀ k ∈ requiredKeys nbins ++ optionalKeys nbins, a1 k = a2 k) :
    read_sfx_class_cls_file nbins a1 = read_sfx_class_cls_file nbins a2 :=
  read_congr nbins a1 a2 h

/-- C4 witness: two calls on the same concrete archive yield an identical
result. -/
theorem read_sfx_deterministic_witness :
    read_sfx_class_cls_file 1 sampleArchive = read_sfx_class_cls_file 1 sampleArchive :=
  read_sfx_deterministic 1 sampleArchive sampleArchive (fun _ _ => rfl)

/-- C5: with all required keys present the flat output fields `l`, `lls`,
`tt`, `ee`, `te`, `pp`, `tp`, `ep` are exactly the input arrays stored under
`"ell1"`, `"ell2"`, `"tt"`, `"ee"`, `"te"`, `"pp"`, `"tp"`, `"ep"`, passed
through unchanged. -/
theorem read_passthrough [Inhabited α] (nbins : Nat) (hn : 1 ≤ nbins)
    (all_cl : String → Option α)
    (hk : ∀ k ∈ requiredKeys nbins, (all_cl k).isSome = true) :
    ∃ r, read_sfx_class_cls_file nbins all_cl = Except.ok r ∧
      all_cl "ell1" = some r.l ∧ all_cl "ell2" = some r.lls ∧
      all_cl "tt" = some r.tt ∧ all_cl "ee" = some r.ee ∧
      all_cl "te" = some r.te ∧ all_cl "pp" = some r.pp ∧
      all_cl "tp" = some r.tp ∧ all_cl "ep" = some r.ep := by
  refine ⟨read_sfx_total nbins all_cl, read_eq_total nbins all_cl hk,
    ?_, ?_, ?_, ?_, ?_, ?_, ?_, ?_⟩
  · simp only [read_sfx_total]
    exact opt_eq_some_getD _ (hk _ (mem_req_of_lit "ell1" (by simp) nbins))
  · simp only [read_sfx_total]
    exact opt_eq_some_getD _ (hk _ (mem_req_of_lit "ell2" (by simp) nbins))
  · simp only [read_sfx_total]
    exact opt_eq_some_getD _ (hk _ (mem_req_of_lit "tt" (by simp) nbins))
  · simp only [read_sfx_total]
    exact opt_eq_some_getD _ (hk _ (mem_req_of_lit "ee" (by simp) nbins))
  · simp only [read_sfx_total]
    exact opt_eq_some_getD _ (hk _ (mem_req_of_lit "te" (by simp) nbins))
  · simp only [read_sfx_total]
    exact opt_eq_some_getD _ (hk _ (mem_req_of_lit "pp" (by simp) nbins))
  · simp only [read_sfx_total]
    exact opt_eq_some_getD _ (hk _ (mem_req_of_lit "tp" (by simp) nbins))
  · simp only [read_sfx_total]
    exact opt_eq_some_getD _ (hk _ (mem_req_of_lit "ep" (by simp) nbins))

/-- C5 witness: the pass-through fields at `nbins = 1` on the concrete
archive. -/
theorem read_passthrough_witness :
    ∃ r, read_sfx_class_cls_file 1 sampleArchive = Except.ok r ∧
      sampleArchive "ell1" = some r.l ∧ sampleArchive "ell2" = some r.lls ∧
      sampleArchive "tt" = some r.tt ∧ sampleArchive "ee" = some r.ee ∧
      sampleArchive "te" = some r.te ∧ sampleArchive "pp" = some r.pp ∧
      sampleArchive "tp" = some r.tp ∧ sampleArchive "ep" = some r.ep :=
  read_passthrough 1 (by decide) sampleArchive (by decide)

/-! ### `read_class_file_headers`

The file is modelled as its list of lines.  Python string operations are
modelled on the character list: `str.strip()` drops whitespace at both
ends, `\d` is modelled as an ASCII digit (CLASS headers are ASCII). -/

/-- Python `str.strip()` on a character list. -/
def pyStripChars (cs : List Char) : List Char :=
  ((cs.dropWhile Char.isWhitespace).reverse.dropWhile Char.isWhitespace).reverse

/-- Python `str.strip()`. -/
def pyStrip (s : String) : String := String.mk (pyStripChars s.toList)

/-- `line.strip().startswith("#")`: the test keeping a line in `headers`. -/
def isHeaderLine (line : String) : Bool :=
  match pyStripChars line.toList with
  | [] => false
  | c :: _ => c = '#'

/-- `line.strip()[1:].strip()`: the value appended to `headers`. -/
def headerEntry (line : String) : String :=
  String.mk (pyStripChars ((pyStripChars line.toList).drop 1))

/-- The scan behind `re.split(r"\d+:", s)`: `ds` holds the digit run being
read (reversed), `acc` the current piece (reversed).  A maximal digit run
immediately followed by `:` is a delimiter; a digit run not followed by `:`
is ordinary text. -/
def splitNC : List Char → List Char → List Char → List (List Char)
  | [], ds, acc => [(ds ++ acc).reverse]
  | c :: cs, ds, acc =>
    if c.isDigit then splitNC cs (c :: ds) acc
    else if c = ':' then
      if ds.isEmpty then splitNC cs [] (c :: acc)
      else acc.reverse :: splitNC cs [] []
    else splitNC cs [] (c :: (ds ++ acc))

/-- `re.split(r"\d+:", s)`. -/
def reSplitNumColon (s : String) : List String :=
  (splitNC s.toList [] []).map String.mk

/-- `read_class_file_headers(file_path)` on the file's lines: collect the
leading `#`-prefixed lines (stopping at the first other line), raise
`ValueError` naming the file when none were found, otherwise split the last
header line on the `<digits>:` pattern, dropping empty pieces and stripping
whitespace. -/
def read_class_file_headers (file_path : String) (lines : List String) :
    Except String (List String) :=
  let headers := (lines.takeWhile isHeaderLine).map headerEntry
  match headers.getLast? with
  | none => Except.error ("No headers found in file: " ++ file_path)
  | some lastHeader =>
      Except.ok ((reSplitNumColon lastHeader).filterMap
        (fun part => if pyStrip part = "" then none else some (pyStrip part)))

theorem takeWhile_of_all (p : α → Bool) :
    ∀ (pre : List α), (∀ l ∈ pre, p l = true) → pre.takeWhile p = pre := by
  intro pre
  induction pre with
  | nil => intro _; rfl
  | cons a as ih =>
    intro h
    rw [List.takeWhile_cons, h a (by simp), ih (fun x hx => h x (by simp [hx]))]
    simp

theorem takeWhile_append_of_all (p : α → Bool) (x : α) (rest : List α) :
    ∀ (pre : List α), (∀ l ∈ pre, p l = true) → p x = false →
      (pre ++ x :: rest).takeWhile p = pre := by
  intro pre
  induction pre with
  | nil => intro _ hx; simp [List.takeWhile_cons, hx]
  | cons a as ih =>
    intro h hx
    rw [List.cons_append, List.takeWhile_cons, h a (by simp),
      ih (fun l hl => h l (by simp [hl])) hx]
    simp

/-- C6: `read_class_file_headers` reads only the leading `#`-prefixed lines
(everything from the first non-header line on is ignored), and extracts
column names from the last header line by splitting on the `<number>:`
pattern, dropping empty pieces and stripping whitespace; in particular on
the concrete three-header file it returns `["col1", "col2"]`. -/
theorem read_class_file_headers_spec (path x : String) (pre rest : List String)
    (hpre : ∀ l ∈ pre, isHeaderLine l = true) (hx : isHeaderLine x = false) :
    read_class_file_headers path (pre ++ x :: rest) = read_class_file_headers path pre ∧
      read_class_file_headers "f" ["# col1", "# col2", "# 1:col1 2:col2", "0.1 0.2"]
        = Except.ok ["col1", "col2"] := by
  constructor
  · rw [read_class_file_headers, read_class_file_headers,
      takeWhile_append_of_all isHeaderLine x rest pre hpre hx,
      takeWhile_of_all isHeaderLine pre hpre]
  · rfl

/-- C6 witness: instantiated on a concrete header file followed by numeric
data. -/
theorem read_class_file_headers_spec_witness :
    (read_class_file_headers "g" (["# a"] ++ "1.0 2.0" :: ["3.0"])
        = read_class_file_headers "g" ["# a"]) ∧
      read_class_file_headers "f" ["# col1", "# col2", "# 1:col1 2:col2", "0.1 0.2"]
        = Except.ok ["col1", "col2"] :=
  read_class_file_headers_spec "g" "1.0 2.0" ["# a"] ["3.0"] (by decide) (by decide)

/-- C7: on a file whose first line (if any) does not start with `#`, the
parser fails with the distinct "no headers found" `ValueError` naming the
file, rather than returning a value. -/
theorem read_class_file_headers_no_headers (path : String) (lines : List String)
    (h : ∀ l, lines.head? = some l → isHeaderLine l = false) :
    read_class_file_headers path lines
      = Except.error ("No headers found in file: " ++ path) := by
  cases lines with
  | nil => rfl
  | cons l ls =>
    have hl := h l rfl
    rw [read_class_file_headers]
    rw [List.takeWhile_cons, hl]
    rfl

/-- C7 witness: a file starting with numeric data yields the "no headers
found" error. -/
theorem read_class_file_headers_no_headers_witness :
    read_class_file_headers "chain.txt" ["0.1 0.2", "# late"]
      = Except.error ("No headers found in file: " ++ "chain.txt") :=
  read_class_file_headers_no_headers "chain.txt" ["0.1 0.2", "# late"]
    (fun l hl => by cases hl; rfl)

/-! ### `varie.py`: `delete_burn_in` and `delete_before_last_hash_line`

The filesystem visible to these routines is modelled as an association list
from path to list of lines.  Python's dynamic numeric types are modelled by
`PyNum`: `len(remaining_lines) * burn_in` is a float whenever `burn_in` is
a float, and slicing a list with a float index raises `TypeError` whatever
its numeric value, so the float payload (kept exactly, as a rational) never
influences the observable behaviour. -/

/-- A Python number: either an `int` or a `float`. -/
inductive PyNum where
  | int (n : Int)
  | float (q : ℚ)

/-- The Python exceptions these routines can raise. -/
inductive PyError where
  | typeError
  | indexError
deriving DecidableEq

/-- Python `lst[k:]` for an integer `k` (negative indices count from the
end, clamped at `0`). -/
def pySliceFrom (l : List α) (k : Int) : List α :=
  if 0 ≤ k then l.drop k.toNat else l.drop ((l.length : Int) + k).toNat

/-- The per-file rewrite inside `delete_burn_in`: `header = lines[0]`
(`IndexError` on an empty file), `remaining_lines = lines[1:]`,
`point_forward = len(remaining_lines) * burn_in`, and
`selected_lines = remaining_lines[point_forward - 1:]`, which is a
`TypeError` when `point_forward` is a float.  The file is rewritten as the
header followed by the selected lines. -/
def trim_file (burn_in : PyNum) (lines : List String) : Except PyError (List String) :=
  match lines with
  | [] => Except.error PyError.indexError
  | header :: remaining =>
    match burn_in with
    | PyNum.int b =>
        Except.ok (header :: pySliceFrom remaining ((remaining.length : Int) * b - 1))
    | PyNum.float _ => Except.error PyError.typeError

/-- Whether `path` matches the glob pattern
`folder + "/" + file + ".*.txt"` (the `*` matches any run of characters
other than the path separator). -/
def matchesPattern (folder file path : String) : Bool :=
  let pfx := (folder ++ "/" ++ file ++ ".").toList
  let sfx := ".txt".toList
  let p := path.toList
  pfx.isPrefixOf p && sfx.isSuffixOf p
    && decide (pfx.length + sfx.length ≤ p.length)
    && ((p.drop pfx.length).take (p.length - pfx.length - sfx.length)).all
        (fun c => c != '/')

/-- The literal the source assigns to `folder` at the top of
`delete_burn_in`, discarding the caller-supplied argument. -/
def hardCodedFolder : String := "emg_cc_P18_desi_wideV0"

/-- `delete_burn_in(folder, file, burn_in)` over the modelled filesystem:
the first statement reassigns `folder` to the hard-coded literal, then each
file matching the glob pattern is rewritten by `trim_file`; any raised
exception aborts the whole call. -/
def delete_burn_in (folder file : String) (burn_in : PyNum)
    (fs : List (String × List String)) :
    Except PyError (List (String × List String)) :=
  let folder := hardCodedFolder
  mapE (fun entry =>
    if matchesPattern folder file entry.1 then
      bindE (trim_file burn_in entry.2) fun ls2 => Except.ok (entry.1, ls2)
    else Except.ok entry) fs

/-- C8: `delete_burn_in` silently reassigns its `folder` parameter to the
hard-coded literal, so its behaviour is identical for any two
caller-supplied folder values (same matched files, same rewrites). -/
theorem delete_burn_in_ignores_folder (f1 f2 file : String) (burn_in : PyNum)
    (fs : List (String × List String)) :
    delete_burn_in f1 file burn_in fs = delete_burn_in f2 file burn_in fs := rfl

theorem burn_in_float_mapE (file : String) (q : ℚ) :
    ∀ (fs : List (String × List String)),
      (∀ p ls, (p, ls) ∈ fs → matchesPattern hardCodedFolder file p = true → ls ≠ []) →
      (∃ p ls, (p, ls) ∈ fs ∧ matchesPattern hardCodedFolder file p = true) →
      mapE (fun entry =>
          if matchesPattern hardCodedFolder file entry.1 then
            bindE (trim_file (PyNum.float q) entry.2) fun ls2 => Except.ok (entry.1, ls2)
          else Except.ok entry) fs
        = Except.error PyError.typeError := by
  intro fs
  induction fs with
  | nil =>
    intro _ hex
    obtain ⟨p, ls, hmem, _⟩ := hex
    cases hmem
  | cons e fs ih =>
    intro hne hex
    rw [mapE]
    by_cases hm : matchesPattern hardCodedFolder file e.1 = true
    · rw [if_pos hm]
      have hnil : e.2 ≠ [] := hne e.1 e.2 (by simp) hm
      cases he2 : e.2 with
      | nil => exact absurd he2 hnil
      | cons hd tl => rfl
    · rw [if_neg hm]
      have hne2 : ∀ p ls, (p, ls) ∈ fs → matchesPattern hardCodedFolder file p = true →
          ls ≠ [] :=
        fun p ls hmem hmatch => hne p ls (List.mem_cons.2 (Or.inr hmem)) hmatch
      have hex2 : ∃ p ls, (p, ls) ∈ fs ∧ matchesPattern hardCodedFolder file p = true := by
        obtain ⟨p, ls, hmem, hmatch⟩ := hex
        rcases List.mem_cons.1 hmem with heq | hmem2
        · exfalso
          apply hm
          rw [show e.1 = p from (congrArg Prod.fst heq).symm]
          exact hmatch
        · exact ⟨p, ls, hmem2, hmatch⟩
      rw [ih hne2 hex2]

/-- C9: on any filesystem holding at least one matched file, with every
matched file non-empty, a float-valued `burn_in` (e.g. `0.3`) makes
`delete_burn_in` raise `TypeError` at the slice
`remaining_lines[point_forward - 1:]` instead of trimming anything: the
documented "remove the first `burn_in` fraction" behaviour is never
reached. -/
theorem delete_burn_in_float_raises (folder file : String) (q : ℚ)
    (fs : List (String × List String))
    (hne : ∀ p ls, (p, ls) ∈ fs → matchesPattern hardCodedFolder file p = true → ls ≠ [])
    (hex : ∃ p ls, (p, ls) ∈ fs ∧ matchesPattern hardCodedFolder file p = true) :
    delete_burn_in folder file (PyNum.float q) fs = Except.error PyError.typeError :=
  burn_in_float_mapE file q fs hne hex

/-- A one-file filesystem whose path matches the hard-coded burn-in
pattern. -/
def burnFsSample : List (String × List String) :=
  [("emg_cc_P18_desi_wideV0/chain.1.txt", ["# header", "0.1", "0.2"])]

/-- C9 witness: `burn_in = 0.3` on a concrete matched chain file raises
`TypeError`. -/
theorem delete_burn_in_float_raises_witness :
    delete_burn_in "some_other_folder" "chain" (PyNum.float (3 / 10)) burnFsSample
      = Except.error PyError.typeError :=
  delete_burn_in_float_raises "some_other_folder" "chain" (3 / 10) burnFsSample
    (by
      intro p ls hmem hmatch
      simp only [burnFsSample, List.mem_singleton, Prod.mk.injEq] at hmem
      obtain ⟨rfl, rfl⟩ := hmem
      decide)
    ⟨"emg_cc_P18_desi_wideV0/chain.1.txt", ["# header", "0.1", "0.2"],
      by decide, by decide⟩

/-- `line.lstrip().startswith("#")`: the test locating hash lines in
`delete_before_last_hash_line`. -/
def lstripStartsHash (line : String) : Bool :=
  match line.toList.dropWhile Char.isWhitespace with
  | [] => false
  | c :: _ => c = '#'

/-- The `last_hash_index` computed by enumerating the lines, starting from
`-1` and recording the index of every hash line in turn. -/
def last_hash_index (lines : List String) : Int :=
  (List.enumFrom 0 lines).foldl
    (fun acc p => if lstripStartsHash p.2 then (p.1 : Int) else acc) (-1)

/-- `delete_before_last_hash_line(file_path)`: if no line starts (after
`lstrip`) with `#`, return without writing, leaving the file unchanged;
otherwise rewrite the file to the lines after the last hash line. -/
def delete_before_last_hash_line (lines : List String) : List String :=
  let idx := last_hash_index lines
  if idx = -1 then lines
  else lines.drop (idx + 1).toNat

theorem foldl_no_hash :
    ∀ (l : List String) (n : Nat) (acc : Int),
      (∀ x ∈ l, lstripStartsHash x = false) →
      (List.enumFrom n l).foldl
        (fun acc p => if lstripStartsHash p.2 then (p.1 : Int) else acc) acc = acc := by
  intro l
  induction l with
  | nil => intro n acc _; rfl
  | cons x xs ih =>
    intro n acc h
    rw [List.enumFrom, List.foldl_cons]
    rw [if_neg (by rw [h x (by simp)]; simp)]
    exact ih (n + 1) acc (fun y hy => h y (by simp [hy]))

/-- C10: on a file with no line starting (after left-stripping) with `#`,
`delete_before_last_hash_line` returns without writing: the contents are
left completely unchanged. -/
theorem delete_before_last_hash_no_hash (lines : List String)
    (h : ∀ l ∈ lines, lstripStartsHash l = false) :
    delete_before_last_hash_line lines = lines := by
  have hidx : last_hash_index lines = -1 := foldl_no_hash lines 0 (-1) h
  rw [delete_before_last_hash_line]
  rw [hidx]
  simp

/-- C10 witness: a concrete two-line numeric file is unchanged. -/
theorem delete_before_last_hash_no_hash_witness :
    delete_before_last_hash_line ["0.5 0.1", " 1.2"] = ["0.5 0.1", " 1.2"] :=
  delete_before_last_hash_no_hash ["0.5 0.1", " 1.2"] (by decide)

end Cosette
